import Mathlib

/-!
Verification development for the intelx-mcp repository.

The development shallowly embeds the two core subsystems:
the identifier pseudonymization registry (`src/lib/postprocess.ts`)
and the asynchronous job-poll loops of the two upstream clients
(`IntelXClient.search` and `IdentityClient.search`), together with the
submit-time validity checks and the integer-identifier resolution used
by the single-shot file handlers of the server entry point.

JavaScript mutable module state (the `uuidToIdMaps` / `idToUuidMaps` maps
and `counters`) is made explicit as a `Registry` value threaded through
each operation.  JavaScript numbers that hold identifiers, counters and
budgets are modelled as `Int` (statuses and counters are small integers,
and the poll budget can go negative exactly as in the source).
-/

namespace IntelxMcp

/-! ## JSON-like trees

`normalizeIntelxId` and `denormalizeIntelxId` walk arbitrary JSON-like
values.  Objects are insertion-ordered key/value lists, as produced by
`Object.entries`. -/

mutual
inductive Json where
  | null : Json
  | str (s : String) : Json
  | num (n : Int) : Json
  | bool (b : Bool) : Json
  | arr (xs : JsonArr) : Json
  | obj (fs : JsonObj) : Json
inductive JsonArr where
  | nil : JsonArr
  | cons (hd : Json) (tl : JsonArr) : JsonArr
inductive JsonObj where
  | nil : JsonObj
  | cons (key : String) (val : Json) (tl : JsonObj) : JsonObj
end

/-! ## The identifier registry (`src/lib/postprocess.ts`, lines 13-35) -/

/-- The seven pseudonymizable field names, `TRANSITION_FIELDS` in
`src/lib/postprocess.ts` (lines 13-21). -/
def TRANSITION_FIELDS : List String :=
  ["system_id", "storage_id", "owner", "indexfile", "group", "randomid", "target"]

/-- Enumeration of the members of `TRANSITION_FIELDS`. -/
inductive TransitionField where
  | system_id | storage_id | owner | indexfile | group | randomid | target
deriving DecidableEq, Repr

/-- The string name of a transition field. -/
def TransitionField.name : TransitionField → String
  | .system_id => "system_id"
  | .storage_id => "storage_id"
  | .owner => "owner"
  | .indexfile => "indexfile"
  | .group => "group"
  | .randomid => "randomid"
  | .target => "target"

/-- `TRANSITION_FIELDS.includes(key)`: which strings denote a registry
namespace.  Returns the corresponding tag, or `none` for every other
string (including the legacy names "systemid" / "storageid" that carry
no underscore). -/
def parseTransitionField (key : String) : Option TransitionField :=
  if key = "system_id" then some .system_id
  else if key = "storage_id" then some .storage_id
  else if key = "owner" then some .owner
  else if key = "indexfile" then some .indexfile
  else if key = "group" then some .group
  else if key = "randomid" then some .randomid
  else if key = "target" then some .target
  else none

/-- One namespace of the registry: the forward map `uuidToIdMaps.get(f)`
(raw string to integer), the reverse map `idToUuidMaps.get(f)` (integer
to raw string) and the allocation counter `counters[f]`.  The JS `Map`s
are modelled as association lists queried with `List.lookup`; insertion
conses at the head (lookups are unaffected by JS insertion order). -/
structure FieldTable where
  forward : List (String × Int)
  reverse : List (Int × String)
  counter : Int
deriving DecidableEq, Repr

/-- The whole registry: one `FieldTable` per transition field. -/
structure Registry where
  system_id : FieldTable
  storage_id : FieldTable
  owner : FieldTable
  indexfile : FieldTable
  group : FieldTable
  randomid : FieldTable
  target : FieldTable
deriving DecidableEq, Repr

/-- Table of one field. -/
def Registry.get (st : Registry) : TransitionField → FieldTable
  | .system_id => st.system_id
  | .storage_id => st.storage_id
  | .owner => st.owner
  | .indexfile => st.indexfile
  | .group => st.group
  | .randomid => st.randomid
  | .target => st.target

/-- Replace the table of one field. -/
def Registry.set (st : Registry) : TransitionField → FieldTable → Registry
  | .system_id, t => { st with system_id := t }
  | .storage_id, t => { st with storage_id := t }
  | .owner, t => { st with owner := t }
  | .indexfile, t => { st with indexfile := t }
  | .group, t => { st with group := t }
  | .randomid, t => { st with randomid := t }
  | .target, t => { st with target := t }

/-- The process-start registry: every map empty, every counter 1
(`src/lib/postprocess.ts`, lines 31-35). -/
def initialRegistry : Registry :=
  let empty : FieldTable := { forward := [], reverse := [], counter := 1 }
  { system_id := empty, storage_id := empty, owner := empty, indexfile := empty,
    group := empty, randomid := empty, target := empty }

/-- The check-then-insert step of `normalizeIntelxId`
(`src/lib/postprocess.ts`, lines 54-59): if `raw` is present in the
forward map return its integer, otherwise allocate the next counter
value, record both directions, and return it. -/
def assign (st : Registry) (f : TransitionField) (raw : String) : Int × Registry :=
  let t := st.get f
  match t.forward.lookup raw with
  | some n => (n, st)
  | none =>
    let n := t.counter
    (n, st.set f
      { forward := (raw, n) :: t.forward
        reverse := (n, raw) :: t.reverse
        counter := t.counter + 1 })

/-! ## `normalizeIntelxId` (`src/lib/postprocess.ts`, lines 40-68)

The recursive `deepScan`: scalars are returned unchanged, arrays map the
scan, and in objects a key in `TRANSITION_FIELDS` whose value is a string
is replaced by its assigned integer; every other entry is scanned
recursively.  The global registry mutation becomes explicit state. -/

mutual
def normalizeIntelxId (st : Registry) : Json → Json × Registry
  | .null => (.null, st)
  | .str s => (.str s, st)
  | .num n => (.num n, st)
  | .bool b => (.bool b, st)
  | .arr xs =>
    let r := normalizeIntelxIdArr st xs
    (.arr r.1, r.2)
  | .obj fs =>
    let r := normalizeIntelxIdObj st fs
    (.obj r.1, r.2)
def normalizeIntelxIdArr (st : Registry) : JsonArr → JsonArr × Registry
  | .nil => (.nil, st)
  | .cons h t =>
    let r1 := normalizeIntelxId st h
    let r2 := normalizeIntelxIdArr r1.2 t
    (.cons r1.1 r2.1, r2.2)
def normalizeIntelxIdObj (st : Registry) : JsonObj → JsonObj × Registry
  | .nil => (.nil, st)
  | .cons k v t =>
    match parseTransitionField k, v with
    | some f, .str s =>
      let r1 := assign st f s
      let r2 := normalizeIntelxIdObj r1.2 t
      (.cons k (.num r1.1) r2.1, r2.2)
    | _, _ =>
      let r1 := normalizeIntelxId st v
      let r2 := normalizeIntelxIdObj r1.2 t
      (.cons k r1.1 r2.1, r2.2)
end

/-! ## `denormalizeIntelxId` (`src/lib/postprocess.ts`, lines 73-95)

The inverse walk: a transition-field key holding a number is replaced by
the reverse-table entry, falling back to the number when unmapped; the
registry is only read. -/

mutual
def denormalizeIntelxId (st : Registry) : Json → Json
  | .null => .null
  | .str s => .str s
  | .num n => .num n
  | .bool b => .bool b
  | .arr xs => .arr (denormalizeIntelxIdArr st xs)
  | .obj fs => .obj (denormalizeIntelxIdObj st fs)
def denormalizeIntelxIdArr (st : Registry) : JsonArr → JsonArr
  | .nil => .nil
  | .cons h t => .cons (denormalizeIntelxId st h) (denormalizeIntelxIdArr st t)
def denormalizeIntelxIdObj (st : Registry) : JsonObj → JsonObj
  | .nil => .nil
  | .cons k v t =>
    match parseTransitionField k, v with
    | some f, .num n =>
      let w := match ((st.get f).reverse.lookup n) with
        | some s => Json.str s
        | none => Json.num n
      .cons k w (denormalizeIntelxIdObj st t)
    | _, _ => .cons k (denormalizeIntelxId st v) (denormalizeIntelxIdObj st t)
end

/-- `getOriginalUuid` (`src/lib/postprocess.ts`, lines 97-102):
`idToUuidMaps.get(field)?.get(id)`.  The server call sites pass the
field name as a runtime string; a string that is not a transition field
selects no table (the optional chaining yields `undefined`). -/
def getOriginalUuid (st : Registry) (field : String) (id : Int) : Option String :=
  match parseTransitionField field with
  | some f => (st.get f).reverse.lookup id
  | none => none

/-- `getNormalizedId` (`src/lib/postprocess.ts`, lines 104-109). -/
def getNormalizedId (st : Registry) (field : String) (uuid : String) : Option Int :=
  match parseTransitionField field with
  | some f => (st.get f).forward.lookup uuid
  | none => none

/-! ## Registry operation sequences

A process run performs an arbitrary interleaving of `assign` steps and
whole-tree normalizations against the shared registry. -/

inductive RegOp where
  | assignOp (f : TransitionField) (raw : String)
  | normalizeOp (v : Json)

/-- Apply one registry-mutating operation. -/
def applyOp (st : Registry) : RegOp → Registry
  | .assignOp f raw => (assign st f raw).2
  | .normalizeOp v => (normalizeIntelxId st v).2

/-- Apply a sequence of registry-mutating operations. -/
def applyOps (st : Registry) (ops : List RegOp) : Registry :=
  ops.foldl applyOp st

/-! ## Identity record normalization (`src/lib/postprocess.ts`, lines 111-145) -/

/-- The `item` sub-object of a raw identity record (`src/lib/types.ts`). -/
structure IdentityRecordItem where
  name : String
  date : String
  bucket : String
  storageid : String
  systemid : String
deriving DecidableEq, Repr

/-- A raw identity/breach record as returned by the upstream poll. -/
structure IdentityRecord where
  item : IdentityRecordItem
  linea : String
deriving DecidableEq, Repr

/-- The flattened identity record shape (`IdentityNormalizedRecord` in
`src/lib/types.ts`). -/
structure IdentityNormalizedRecord where
  line : String
  system_id : String
  storage_id : String
  bucket : String
  filename : String
  date : String
deriving DecidableEq, Repr

/-- The field projection of `normalizeIdentityRecords`
(`src/lib/postprocess.ts`, lines 115-122). -/
def identityProject (r : IdentityRecord) : IdentityNormalizedRecord :=
  { line := r.linea
    system_id := r.item.systemid
    storage_id := r.item.storageid
    bucket := r.item.bucket
    filename := r.item.name
    date := r.item.date }

/-- One step of the `forEach` merge (`src/lib/postprocess.ts`, lines
123-128): seed an empty-line copy on first sight of a storage id, then
append `"\n" + record.line` to the entry for that storage id.  The plain
JS object `mergedByStorageId` is an insertion-ordered string-keyed map,
modelled as an association list (the storage identifiers of interest are
not array-index-like, so JS preserves insertion order for them). -/
def mergeStep (m : List (String × IdentityNormalizedRecord))
    (r : IdentityNormalizedRecord) : List (String × IdentityNormalizedRecord) :=
  let m1 := if (m.lookup r.storage_id).isSome then m
            else m ++ [(r.storage_id, { r with line := "" })]
  m1.map fun kv =>
    if kv.1 = r.storage_id then (kv.1, { kv.2 with line := kv.2.line ++ ("\n" ++ r.line) })
    else kv

/-- The merge stage followed by `Object.values`
(`src/lib/postprocess.ts`, lines 114-130). -/
def mergeByStorageId (rs : List IdentityNormalizedRecord) : List IdentityNormalizedRecord :=
  (rs.foldl mergeStep []).map Prod.snd

/-- Characters stripped by JS `String.prototype.trim` (the WhiteSpace and
LineTerminator sets; the exotic Unicode space separators are included for
the code points that can occur in the claims and tests). -/
def isJsWhitespace (c : Char) : Bool :=
  c = ' ' || c = '\t' || c = '\n' || c = '\r' ||
  c = '\x0b' || c = '\x0c' || c = ' ' || c = '﻿' ||
  c = ' ' || c = ' '

/-- JS `line.trim()`: drop whitespace from both ends. -/
def jsTrim (s : String) : String :=
  String.mk (((s.data.dropWhile isJsWhitespace).reverse.dropWhile isJsWhitespace).reverse)

/-- The trim-and-truncate rendering of a merged line
(`src/lib/postprocess.ts`, lines 132-142): after trimming, a line longer
than 128 characters becomes its first 128 characters followed by the
`...(More N characters)` marker. -/
def truncateIdentityLine (line : String) : String :=
  let t := jsTrim line
  if 128 < t.length then
    t.take 128 ++ ("...(More " ++ toString (t.length - 128) ++ " characters)")
  else t

/-- The truncation stage applied to every merged record. -/
def truncateStage (rs : List IdentityNormalizedRecord) : List IdentityNormalizedRecord :=
  rs.map fun r => { r with line := truncateIdentityLine r.line }

/-- An `IdentityNormalizedRecord` as the JSON object fed to
`normalizeIntelxId`, keys in the object-literal order of the source. -/
def identityRecordJson (r : IdentityNormalizedRecord) : Json :=
  .obj (.cons "line" (.str r.line)
    (.cons "system_id" (.str r.system_id)
      (.cons "storage_id" (.str r.storage_id)
        (.cons "bucket" (.str r.bucket)
          (.cons "filename" (.str r.filename)
            (.cons "date" (.str r.date) .nil))))))

/-- A record list as a JSON array. -/
def recordsToJson : List IdentityNormalizedRecord → JsonArr
  | [] => .nil
  | r :: rs => .cons (identityRecordJson r) (recordsToJson rs)

/-- `normalizeIdentityRecords` (`src/lib/postprocess.ts`, lines 111-145):
project, merge by storage id, trim/truncate lines, then pseudonymize via
`normalizeIntelxId`. -/
def normalizeIdentityRecords (st : Registry) (allRecords : List IdentityRecord) :
    Json × Registry :=
  let merged := mergeByStorageId (allRecords.map identityProject)
  let truncated := truncateStage merged
  let r := normalizeIntelxIdArr st (recordsToJson truncated)
  (.arr r.1, r.2)

/-! ## Search status constants -/

/-- Modelled from the spec: `constants.ts` (the `SEARCH_STATUS` constants
imported by `IntelXClient`) is not among the provided sources.  Spec §6
together with the literal statuses used by `identity-client.ts`
(0 = success/continue, 2 = no more results, 3 = not found) fixes the
mapping. -/
def SEARCH_STATUS_SUCCESS : Int := 0

/-- Modelled from the spec: see `SEARCH_STATUS_SUCCESS`. -/
def SEARCH_STATUS_NO_MORE_RESULTS : Int := 2

/-- Modelled from the spec: see `SEARCH_STATUS_SUCCESS`. -/
def SEARCH_STATUS_NOT_FOUND : Int := 3

/-! ## The job poll loops

Each poll round of a run is one upstream `{status, records}` response;
a scripted run feeds the loop a list of such rounds.  `records` is
`Option` because the upstream field may be absent (`undefined`).  The
loop result records what the run did: the accumulated records, the final
budget, the status of the round on which the loop exited, and whether a
terminate call was issued.  A run whose script is exhausted before the
loop exits has no result (`none`): the real loop would keep polling. -/

structure PollResponse (α : Type) where
  status : Int
  records : Option (List α)
deriving DecidableEq, Repr

structure SearchRunResult (α : Type) where
  accumulated : List α
  finalBudget : Int
  finalStatus : Int
  terminateCalled : Bool
deriving DecidableEq, Repr

/-- Empty-or-absent test `(!results.records || results.records.length === 0)`. -/
def recordsEmpty {α : Type} : Option (List α) → Bool
  | none => true
  | some [] => true
  | some (_ :: _) => false

/-- The polling loop of `IntelXClient.search` (`src/unnamed/part_002`,
lines 112-147, the file that defines `IntelXClient`): push every
non-absent batch and decrement the budget by its length; loop again on a
success status with an empty round; exit on `NO_MORE_RESULTS`,
`NOT_FOUND` or an exhausted budget, issuing terminate exactly when the
budget is exhausted; otherwise loop. -/
def intelxSearchLoop {α : Type} :
    List (PollResponse α) → List α → Int → Option (SearchRunResult α)
  | [], _, _ => none
  | r :: rest, acc, budget =>
    let step : List α × Int :=
      match r.records with
      | some recs => (acc ++ recs, budget - (recs.length : Int))
      | none => (acc, budget)
    let acc1 := step.1
    let b1 := step.2
    if r.status = SEARCH_STATUS_SUCCESS ∧ recordsEmpty r.records then
      intelxSearchLoop rest acc1 b1
    else if r.status = SEARCH_STATUS_NO_MORE_RESULTS ∨
        r.status = SEARCH_STATUS_NOT_FOUND ∨ b1 ≤ 0 then
      some { accumulated := acc1, finalBudget := b1, finalStatus := r.status,
             terminateCalled := decide (b1 ≤ 0) }
    else
      intelxSearchLoop rest acc1 b1

/-- The polling loop of `IdentityClient.search`
(`src/lib/identity-client.ts`, lines 73-97): on status 0 with a present
batch, push it and decrement the budget; then, if status is 2 or the
budget is exhausted, push the present batch AGAIN, terminate exactly when
the budget is exhausted, and exit; on status 3, terminate and exit;
otherwise loop. -/
def identitySearchLoop {α : Type} :
    List (PollResponse α) → List α → Int → Option (SearchRunResult α)
  | [], _, _ => none
  | r :: rest, acc, budget =>
    let step : List α × Int :=
      match r.records with
      | some recs =>
        if r.status = 0 then (acc ++ recs, budget - (recs.length : Int)) else (acc, budget)
      | none => (acc, budget)
    let acc1 := step.1
    let b1 := step.2
    if r.status = 2 ∨ b1 ≤ 0 then
      let acc2 := match r.records with
        | some recs => acc1 ++ recs
        | none => acc1
      some { accumulated := acc2, finalBudget := b1, finalStatus := r.status,
             terminateCalled := decide (b1 ≤ 0) }
    else if r.status = 3 then
      some { accumulated := acc1, finalBudget := b1, finalStatus := r.status,
             terminateCalled := true }
    else
      identitySearchLoop rest acc1 b1

/-! ## Submit-time validity checks -/

/-- The upstream submit response `{id, status}`. -/
structure SearchResponse where
  id : String
  status : Int
deriving DecidableEq, Repr

inductive SubmitError where
  | invalidSearchTerm
  | invalidHandle (id : String)
deriving DecidableEq, Repr

/-- The submit check of `IntelXClient.intelligentSearch`
(`src/unnamed/part_002`, lines 81-88): status 1 is rejected as an
invalid search term; the returned handle is used as-is, with no length
check. -/
def intelligentSearchSubmit (resp : SearchResponse) : Except SubmitError String :=
  if resp.status = 1 then .error .invalidSearchTerm else .ok resp.id

/-- The submit step of `IntelXClient.phonebookSearch`
(`src/unnamed/part_002`, lines 149-183): `data.id` is returned with no
status check and no length check. -/
def phonebookSearchSubmit (resp : SearchResponse) : Except SubmitError String :=
  .ok resp.id

/-- The submit check of `IdentityClient.search`
(`src/lib/identity-client.ts`, lines 63-68): a handle of length at most
3 is rejected; the response status is not examined. -/
def identitySearchSubmit (resp : SearchResponse) : Except SubmitError String :=
  if resp.id.length ≤ 3 then .error (.invalidHandle resp.id) else .ok resp.id

/-- The submit check of `IdentityClient.exportAccounts`
(`src/lib/identity-client.ts`, lines 164-169): identical handle-length
check, no status check. -/
def exportAccountsSubmit (resp : SearchResponse) : Except SubmitError String :=
  if resp.id.length ≤ 3 then .error (.invalidHandle resp.id) else .ok resp.id

/-- `IdentityClient.search` end to end on a scripted run: the submit
check precedes the polling loop, so a rejected handle yields the error
before any poll round is consumed. -/
def identityClientSearch {α : Type} (resp : SearchResponse)
    (script : List (PollResponse α)) (budget : Int) :
    Except SubmitError (Option (SearchRunResult α)) :=
  match identitySearchSubmit resp with
  | .error e => .error e
  | .ok _ => .ok (identitySearchLoop script [] budget)

/-! ## Integer-identifier resolution in the single-shot handlers

The `intelx_file_preview`, `intelx_file_view`, `intelx_file_read`,
`intelx_file_treeview` and `intelx_get_selectors` handlers of the server
entry point (`src/unnamed/part_002`, lines 615-641, 672-695, 717-744,
776-808, 836-857) all resolve the caller-supplied integer through
`getOriginalUuid` with the field-name strings "storageid" and "systemid"
and fail before the upstream call when the lookup yields nothing. -/

inductive HandlerError where
  | invalidStorageId (id : Int)
  | invalidSystemId (id : Int)
deriving DecidableEq, Repr

/-- The storage-id resolution step shared by the file preview, file view
and tree-view handlers: `getOriginalUuid("storageid", +storage_id)`,
throwing when the result is absent. -/
def resolveHandlerStorageId (st : Registry) (storage_id : Int) :
    Except HandlerError String :=
  match getOriginalUuid st "storageid" storage_id with
  | some s => .ok s
  | none => .error (.invalidStorageId storage_id)

/-- The system-id resolution step of the file read, tree-view and
selector-extraction handlers: `getOriginalUuid("systemid", +system_id)`,
throwing when the result is absent. -/
def resolveHandlerSystemId (st : Registry) (system_id : Int) :
    Except HandlerError String :=
  match getOriginalUuid st "systemid" system_id with
  | some s => .ok s
  | none => .error (.invalidSystemId system_id)

/-! ## Association-list lookup helpers -/

theorem lookupConsSelf {α β : Type} [BEq α] [LawfulBEq α] (k : α) (v : β)
    (l : List (α × β)) : List.lookup k ((k, v) :: l) = some v := by
  simp [List.lookup]

theorem lookupConsNe {α β : Type} [BEq α] [LawfulBEq α] {s k : α} (h : s ≠ k)
    (v : β) (l : List (α × β)) : List.lookup s ((k, v) :: l) = List.lookup s l := by
  simp [List.lookup, beq_eq_false_iff_ne.mpr h]

/-! ## Registry get/set lemmas -/

theorem Registry.get_set_self (st : Registry) (f : TransitionField) (t : FieldTable) :
    (st.set f t).get f = t := by
  cases f <;> rfl

theorem Registry.get_set_of_ne (st : Registry) {f g : TransitionField} (t : FieldTable)
    (h : g ≠ f) : (st.set f t).get g = st.get g := by
  cases f <;> cases g <;> first | rfl | exact absurd rfl h

/-! ## Registry invariants

`TableWF` is the forward/reverse synchronization invariant of one
namespace: every forward entry has the matching reverse entry, and every
allocated integer is below the counter.  `RegistryLE` says that every
binding of one registry persists into another (the tables only grow). -/

structure TableWF (t : FieldTable) : Prop where
  fw_rev : ∀ s n, t.forward.lookup s = some n → t.reverse.lookup n = some s
  fw_lt : ∀ s n, t.forward.lookup s = some n → n < t.counter
  rev_lt : ∀ n s, t.reverse.lookup n = some s → n < t.counter

def RegistryWF (st : Registry) : Prop :=
  ∀ f : TransitionField, TableWF (st.get f)

def RegistryLE (st1 st2 : Registry) : Prop :=
  ∀ f : TransitionField,
    (∀ s n, (st1.get f).forward.lookup s = some n →
      (st2.get f).forward.lookup s = some n) ∧
    (∀ n s, (st1.get f).reverse.lookup n = some s →
      (st2.get f).reverse.lookup n = some s)

theorem RegistryLE.refl (st : Registry) : RegistryLE st st :=
  fun _ => ⟨fun _ _ h => h, fun _ _ h => h⟩

theorem RegistryLE.trans {a b c : Registry} (h1 : RegistryLE a b)
    (h2 : RegistryLE b c) : RegistryLE a c :=
  fun f => ⟨fun s n hs => (h2 f).1 s n ((h1 f).1 s n hs),
            fun n s hs => (h2 f).2 n s ((h1 f).2 n s hs)⟩

theorem initialRegistry_wf : RegistryWF initialRegistry := by
  intro f
  have htab : initialRegistry.get f = { forward := [], reverse := [], counter := 1 } := by
    cases f <;> rfl
  rw [htab]
  exact ⟨fun s n h => by simp [List.lookup] at h,
         fun s n h => by simp [List.lookup] at h,
         fun n s h => by simp [List.lookup] at h⟩

/-! ## `assign` lemmas -/

theorem assign_of_lookup_some {st : Registry} {f : TransitionField} {raw : String}
    {n : Int} (h : (st.get f).forward.lookup raw = some n) :
    assign st f raw = (n, st) := by
  simp [assign, h]

theorem assign_of_lookup_none {st : Registry} {f : TransitionField} {raw : String}
    (h : (st.get f).forward.lookup raw = none) :
    assign st f raw =
      ((st.get f).counter,
        st.set f
          { forward := (raw, (st.get f).counter) :: (st.get f).forward
            reverse := ((st.get f).counter, raw) :: (st.get f).reverse
            counter := (st.get f).counter + 1 }) := by
  simp [assign, h]

/-- After `assign`, the raw value is bound to the returned integer. -/
theorem assign_lookup_self (st : Registry) (f : TransitionField) (raw : String) :
    (((assign st f raw).2).get f).forward.lookup raw = some (assign st f raw).1 := by
  cases h : (st.get f).forward.lookup raw with
  | some n => rw [assign_of_lookup_some h]; exact h
  | none =>
    rw [assign_of_lookup_none h]
    simp [Registry.get_set_self, lookupConsSelf]

/-- `assign` preserves the registry invariant. -/
theorem assign_wf {st : Registry} (f : TransitionField) (raw : String)
    (h : RegistryWF st) : RegistryWF (assign st f raw).2 := by
  cases hl : (st.get f).forward.lookup raw with
  | some n => rw [assign_of_lookup_some hl]; exact h
  | none =>
    intro g
    rw [assign_of_lookup_none hl]
    by_cases hg : g = f
    · subst hg
      rw [Registry.get_set_self]
      refine ⟨?_, ?_, ?_⟩
      · intro s n hs
        by_cases hsr : s = raw
        · subst hsr
          rw [lookupConsSelf] at hs
          cases hs
          exact lookupConsSelf _ _ _
        · rw [lookupConsNe hsr] at hs
          have hlt : n < (st.get g).counter := (h g).fw_lt s n hs
          have hne : n ≠ (st.get g).counter := ne_of_lt hlt
          rw [lookupConsNe hne]
          exact (h g).fw_rev s n hs
      · intro s n hs
        by_cases hsr : s = raw
        · subst hsr
          rw [lookupConsSelf] at hs
          cases hs
          dsimp only
          omega
        · rw [lookupConsNe hsr] at hs
          have := (h g).fw_lt s n hs
          dsimp only
          omega
      · intro n s hs
        by_cases hnc : n = (st.get g).counter
        · subst hnc
          dsimp only
          omega
        · rw [lookupConsNe hnc] at hs
          have := (h g).rev_lt n s hs
          dsimp only
          omega
    · rw [Registry.get_set_of_ne _ _ hg]
      exact h g

/-- `assign` only adds bindings: the old registry embeds in the new. -/
theorem assign_le {st : Registry} (f : TransitionField) (raw : String)
    (h : RegistryWF st) : RegistryLE st (assign st f raw).2 := by
  cases hl : (st.get f).forward.lookup raw with
  | some n => rw [assign_of_lookup_some hl]; exact RegistryLE.refl st
  | none =>
    intro g
    rw [assign_of_lookup_none hl]
    by_cases hg : g = f
    · subst hg
      rw [Registry.get_set_self]
      constructor
      · intro s n hs
        by_cases hsr : s = raw
        · subst hsr; rw [hl] at hs; cases hs
        · rw [lookupConsNe hsr]; exact hs
      · intro n s hs
        have hlt : n < (st.get g).counter := (h g).rev_lt n s hs
        rw [lookupConsNe (ne_of_lt hlt)]
        exact hs
    · rw [Registry.get_set_of_ne _ _ hg]
      exact ⟨fun _ _ hs => hs, fun _ _ hs => hs⟩

/-! ## `normalizeIntelxId` preserves the invariant and only grows tables -/

mutual
theorem normalizeIntelxId_wf_le : ∀ (v : Json) (st : Registry), RegistryWF st →
    RegistryWF (normalizeIntelxId st v).2 ∧ RegistryLE st (normalizeIntelxId st v).2
  | .null, st, h => ⟨h, RegistryLE.refl st⟩
  | .str _, st, h => ⟨h, RegistryLE.refl st⟩
  | .num _, st, h => ⟨h, RegistryLE.refl st⟩
  | .bool _, st, h => ⟨h, RegistryLE.refl st⟩
  | .arr xs, st, h => normalizeIntelxIdArr_wf_le xs st h
  | .obj fs, st, h => normalizeIntelxIdObj_wf_le fs st h
theorem normalizeIntelxIdArr_wf_le : ∀ (xs : JsonArr) (st : Registry), RegistryWF st →
    RegistryWF (normalizeIntelxIdArr st xs).2 ∧ RegistryLE st (normalizeIntelxIdArr st xs).2
  | .nil, st, h => ⟨h, RegistryLE.refl st⟩
  | .cons hd tl, st, h => by
    obtain ⟨h1, le1⟩ := normalizeIntelxId_wf_le hd st h
    obtain ⟨h2, le2⟩ := normalizeIntelxIdArr_wf_le tl (normalizeIntelxId st hd).2 h1
    exact ⟨h2, le1.trans le2⟩
theorem normalizeIntelxIdObj_wf_le : ∀ (fs : JsonObj) (st : Registry), RegistryWF st →
    RegistryWF (normalizeIntelxIdObj st fs).2 ∧ RegistryLE st (normalizeIntelxIdObj st fs).2
  | .nil, st, h => ⟨h, RegistryLE.refl st⟩
  | .cons k v tl, st, h => by
    rcases hp : parseTransitionField k with _ | f
    · obtain ⟨h1, le1⟩ := normalizeIntelxId_wf_le v st h
      obtain ⟨h2, le2⟩ := normalizeIntelxIdObj_wf_le tl (normalizeIntelxId st v).2 h1
      cases v <;> simp only [normalizeIntelxIdObj, hp] <;> exact ⟨h2, le1.trans le2⟩
    · cases v with
      | str s =>
        have h1 := assign_wf f s h
        have le1 := assign_le f s h
        obtain ⟨h2, le2⟩ := normalizeIntelxIdObj_wf_le tl (assign st f s).2 h1
        simp only [normalizeIntelxIdObj, hp]
        exact ⟨h2, le1.trans le2⟩
      | null =>
        obtain ⟨h1, le1⟩ := normalizeIntelxId_wf_le .null st h
        obtain ⟨h2, le2⟩ := normalizeIntelxIdObj_wf_le tl (normalizeIntelxId st .null).2 h1
        simp only [normalizeIntelxIdObj, hp]
        exact ⟨h2, le1.trans le2⟩
      | num n =>
        obtain ⟨h1, le1⟩ := normalizeIntelxId_wf_le (.num n) st h
        obtain ⟨h2, le2⟩ := normalizeIntelxIdObj_wf_le tl (normalizeIntelxId st (.num n)).2 h1
        simp only [normalizeIntelxIdObj, hp]
        exact ⟨h2, le1.trans le2⟩
      | bool b =>
        obtain ⟨h1, le1⟩ := normalizeIntelxId_wf_le (.bool b) st h
        obtain ⟨h2, le2⟩ := normalizeIntelxIdObj_wf_le tl (normalizeIntelxId st (.bool b)).2 h1
        simp only [normalizeIntelxIdObj, hp]
        exact ⟨h2, le1.trans le2⟩
      | arr xs =>
        obtain ⟨h1, le1⟩ := normalizeIntelxId_wf_le (.arr xs) st h
        obtain ⟨h2, le2⟩ := normalizeIntelxIdObj_wf_le tl (normalizeIntelxId st (.arr xs)).2 h1
        simp only [normalizeIntelxIdObj, hp]
        exact ⟨h2, le1.trans le2⟩
      | obj gs =>
        obtain ⟨h1, le1⟩ := normalizeIntelxId_wf_le (.obj gs) st h
        obtain ⟨h2, le2⟩ := normalizeIntelxIdObj_wf_le tl (normalizeIntelxId st (.obj gs)).2 h1
        simp only [normalizeIntelxIdObj, hp]
        exact ⟨h2, le1.trans le2⟩
end

/-! ## Reduction lemmas for the object walks -/

/-- Whether a JSON value is a string. -/
def Json.isStr : Json → Bool
  | .str _ => true
  | _ => false

/-- Whether a JSON value is a number. -/
def Json.isNum : Json → Bool
  | .num _ => true
  | _ => false

theorem normObj_cons_str {k : String} {f : TransitionField} {s : String}
    {tl : JsonObj} {st : Registry} (hp : parseTransitionField k = some f) :
    normalizeIntelxIdObj st (.cons k (.str s) tl) =
      (.cons k (.num (assign st f s).1)
        (normalizeIntelxIdObj (assign st f s).2 tl).1,
       (normalizeIntelxIdObj (assign st f s).2 tl).2) := by
  simp [normalizeIntelxIdObj, hp]

theorem normObj_cons_other {k : String} {v : Json} {tl : JsonObj} {st : Registry}
    (hv : v.isStr = false ∨ parseTransitionField k = none) :
    normalizeIntelxIdObj st (.cons k v tl) =
      (.cons k (normalizeIntelxId st v).1
        (normalizeIntelxIdObj (normalizeIntelxId st v).2 tl).1,
       (normalizeIntelxIdObj (normalizeIntelxId st v).2 tl).2) := by
  rcases hv with hv | hv
  · cases v <;> simp [Json.isStr] at hv <;>
      cases hp : parseTransitionField k <;> simp [normalizeIntelxIdObj, hp]
  · cases v <;> simp [normalizeIntelxIdObj, hv]

theorem denormObj_cons_num {k : String} {f : TransitionField} {n : Int}
    {tl : JsonObj} {st : Registry} (hp : parseTransitionField k = some f) :
    denormalizeIntelxIdObj st (.cons k (.num n) tl) =
      .cons k
        (match (st.get f).reverse.lookup n with
         | some s => Json.str s
         | none => Json.num n)
        (denormalizeIntelxIdObj st tl) := by
  simp [denormalizeIntelxIdObj, hp]

theorem denormObj_cons_other {k : String} {v : Json} {tl : JsonObj} {st : Registry}
    (hv : v.isNum = false ∨ parseTransitionField k = none) :
    denormalizeIntelxIdObj st (.cons k v tl) =
      .cons k (denormalizeIntelxId st v) (denormalizeIntelxIdObj st tl) := by
  rcases hv with hv | hv
  · cases v <;> simp [Json.isNum] at hv <;>
      cases hp : parseTransitionField k <;> simp [denormalizeIntelxIdObj, hp]
  · cases v <;> simp [denormalizeIntelxIdObj, hv]

/-! ## Trees whose pseudonymizable fields are raw strings

`rawTransitionFields` holds of a tree in which every value sitting under
a transition-field key is a plain string — the shape of an upstream
response before pseudonymization. -/

mutual
def rawTransitionFields : Json → Bool
  | .null => true
  | .str _ => true
  | .num _ => true
  | .bool _ => true
  | .arr xs => rawTransitionFieldsArr xs
  | .obj fs => rawTransitionFieldsObj fs
def rawTransitionFieldsArr : JsonArr → Bool
  | .nil => true
  | .cons h t => rawTransitionFields h && rawTransitionFieldsArr t
def rawTransitionFieldsObj : JsonObj → Bool
  | .nil => true
  | .cons k v t =>
    (match parseTransitionField k, v with
     | some _, .str _ => true
     | some _, _ => false
     | none, _ => rawTransitionFields v) && rawTransitionFieldsObj t
end

/-! ## The denormalize-after-normalize round trip -/

mutual
theorem denorm_norm_json : ∀ (v : Json) (st : Registry), RegistryWF st →
    rawTransitionFields v = true → ∀ st2 : Registry,
    RegistryLE (normalizeIntelxId st v).2 st2 →
    denormalizeIntelxId st2 (normalizeIntelxId st v).1 = v
  | .null, _, _, _, _, _ => rfl
  | .str _, _, _, _, _, _ => rfl
  | .num _, _, _, _, _, _ => rfl
  | .bool _, _, _, _, _, _ => rfl
  | .arr xs, st, h, hraw, st2, hle => by
    have hx : rawTransitionFieldsArr xs = true := hraw
    have := denorm_norm_arr xs st h hx st2 hle
    simp only [normalizeIntelxId, denormalizeIntelxId] at *
    rw [this]
  | .obj fs, st, h, hraw, st2, hle => by
    have hx : rawTransitionFieldsObj fs = true := hraw
    have := denorm_norm_obj fs st h hx st2 hle
    simp only [normalizeIntelxId, denormalizeIntelxId] at *
    rw [this]
theorem denorm_norm_arr : ∀ (xs : JsonArr) (st : Registry), RegistryWF st →
    rawTransitionFieldsArr xs = true → ∀ st2 : Registry,
    RegistryLE (normalizeIntelxIdArr st xs).2 st2 →
    denormalizeIntelxIdArr st2 (normalizeIntelxIdArr st xs).1 = xs
  | .nil, _, _, _, _, _ => rfl
  | .cons hd tl, st, h, hraw, st2, hle => by
    simp only [rawTransitionFieldsArr, Bool.and_eq_true] at hraw
    obtain ⟨h1, le1⟩ := normalizeIntelxId_wf_le hd st h
    obtain ⟨h2, le2⟩ := normalizeIntelxIdArr_wf_le tl (normalizeIntelxId st hd).2 h1
    have hhd := denorm_norm_json hd st h hraw.1 st2 (le2.trans hle)
    have htl := denorm_norm_arr tl (normalizeIntelxId st hd).2 h1 hraw.2 st2 hle
    simp only [normalizeIntelxIdArr, denormalizeIntelxIdArr]
    rw [hhd, htl]
theorem denorm_norm_obj : ∀ (fs : JsonObj) (st : Registry), RegistryWF st →
    rawTransitionFieldsObj fs = true → ∀ st2 : Registry,
    RegistryLE (normalizeIntelxIdObj st fs).2 st2 →
    denormalizeIntelxIdObj st2 (normalizeIntelxIdObj st fs).1 = fs
  | .nil, _, _, _, _, _ => rfl
  | .cons k v tl, st, h, hraw, st2, hle => by
    rcases hp : parseTransitionField k with _ | f
    · rw [normObj_cons_other (Or.inr hp)] at hle ⊢
      simp only [rawTransitionFieldsObj, hp, Bool.and_eq_true] at hraw
      obtain ⟨h1, le1⟩ := normalizeIntelxId_wf_le v st h
      obtain ⟨h2, le2⟩ :=
        normalizeIntelxIdObj_wf_le tl (normalizeIntelxId st v).2 h1
      have hv := denorm_norm_json v st h hraw.1 st2 (le2.trans hle)
      have htl :=
        denorm_norm_obj tl (normalizeIntelxId st v).2 h1 hraw.2 st2 hle
      rw [denormObj_cons_other (Or.inr hp), hv, htl]
    · cases v with
      | str s =>
        rw [normObj_cons_str hp] at hle ⊢
        simp only [rawTransitionFieldsObj, hp, Bool.and_eq_true] at hraw
        have h1 := assign_wf f s h
        obtain ⟨h2, le2⟩ := normalizeIntelxIdObj_wf_le tl (assign st f s).2 h1
        have htl := denorm_norm_obj tl (assign st f s).2 h1 hraw.2 st2 hle
        rw [denormObj_cons_num hp, htl]
        have hfw : (((assign st f s).2).get f).forward.lookup s
            = some (assign st f s).1 := assign_lookup_self st f s
        have hrev : (((assign st f s).2).get f).reverse.lookup (assign st f s).1
            = some s := (h1 f).fw_rev s (assign st f s).1 hfw
        have hrev2 : ((st2).get f).reverse.lookup (assign st f s).1 = some s :=
          ((le2.trans hle) f).2 (assign st f s).1 s hrev
        rw [hrev2]
      | null => simp [rawTransitionFieldsObj, hp] at hraw
      | num n => simp [rawTransitionFieldsObj, hp] at hraw
      | bool b => simp [rawTransitionFieldsObj, hp] at hraw
      | arr xs => simp [rawTransitionFieldsObj, hp] at hraw
      | obj gs => simp [rawTransitionFieldsObj, hp] at hraw
end

/-! ## Normalized trees and idempotence of the pseudonymizing walk -/

mutual
def jsonNormalized : Json → Bool
  | .null => true
  | .str _ => true
  | .num _ => true
  | .bool _ => true
  | .arr xs => jsonNormalizedArr xs
  | .obj fs => jsonNormalizedObj fs
def jsonNormalizedArr : JsonArr → Bool
  | .nil => true
  | .cons h t => jsonNormalized h && jsonNormalizedArr t
def jsonNormalizedObj : JsonObj → Bool
  | .nil => true
  | .cons k v t =>
    (match parseTransitionField k, v with
     | some _, .str _ => false
     | _, _ => jsonNormalized v) && jsonNormalizedObj t
end

/-- The walk never turns a non-string into a string. -/
theorem normalize_isStr (st : Registry) (v : Json) :
    ((normalizeIntelxId st v).1).isStr = v.isStr := by
  cases v <;> rfl

mutual
theorem normalize_normalized : ∀ (v : Json) (st : Registry),
    jsonNormalized (normalizeIntelxId st v).1 = true
  | .null, _ => rfl
  | .str _, _ => rfl
  | .num _, _ => rfl
  | .bool _, _ => rfl
  | .arr xs, st => normalize_normalized_arr xs st
  | .obj fs, st => normalize_normalized_obj fs st
theorem normalize_normalized_arr : ∀ (xs : JsonArr) (st : Registry),
    jsonNormalizedArr (normalizeIntelxIdArr st xs).1 = true
  | .nil, _ => rfl
  | .cons hd tl, st => by
    have h1 := normalize_normalized hd st
    have h2 := normalize_normalized_arr tl (normalizeIntelxId st hd).2
    simp only [normalizeIntelxIdArr, jsonNormalizedArr, Bool.and_eq_true]
    exact ⟨h1, h2⟩
theorem normalize_normalized_obj : ∀ (fs : JsonObj) (st : Registry),
    jsonNormalizedObj (normalizeIntelxIdObj st fs).1 = true
  | .nil, _ => rfl
  | .cons k v tl, st => by
    rcases hp : parseTransitionField k with _ | f
    · rw [normObj_cons_other (Or.inr hp)]
      have h1 := normalize_normalized v st
      have h2 := normalize_normalized_obj tl (normalizeIntelxId st v).2
      simp only [jsonNormalizedObj, hp, Bool.and_eq_true]
      cases hv : (normalizeIntelxId st v).1 <;> simp_all
    · cases hv : v.isStr with
      | true =>
        cases v with
        | str s =>
          rw [normObj_cons_str hp]
          have h2 := normalize_normalized_obj tl (assign st f s).2
          simp only [jsonNormalizedObj, hp, Bool.and_eq_true]
          exact ⟨rfl, h2⟩
        | null => simp [Json.isStr] at hv
        | num n => simp [Json.isStr] at hv
        | bool b => simp [Json.isStr] at hv
        | arr xs => simp [Json.isStr] at hv
        | obj gs => simp [Json.isStr] at hv
      | false =>
        rw [normObj_cons_other (Or.inl hv)]
        have h1 := normalize_normalized v st
        have h2 := normalize_normalized_obj tl (normalizeIntelxId st v).2
        have hs : ((normalizeIntelxId st v).1).isStr = false :=
          (normalize_isStr st v).trans hv
        simp only [jsonNormalizedObj, hp, Bool.and_eq_true]
        cases hv2 : (normalizeIntelxId st v).1 <;> simp_all [Json.isStr]
end

mutual
theorem normalize_of_normalized : ∀ (v : Json) (st : Registry),
    jsonNormalized v = true → normalizeIntelxId st v = (v, st)
  | .null, _, _ => rfl
  | .str _, _, _ => rfl
  | .num _, _, _ => rfl
  | .bool _, _, _ => rfl
  | .arr xs, st, h => by
    have := normalize_of_normalized_arr xs st h
    simp only [normalizeIntelxId, this]
  | .obj fs, st, h => by
    have := normalize_of_normalized_obj fs st h
    simp only [normalizeIntelxId, this]
theorem normalize_of_normalized_arr : ∀ (xs : JsonArr) (st : Registry),
    jsonNormalizedArr xs = true → normalizeIntelxIdArr st xs = (xs, st)
  | .nil, _, _ => rfl
  | .cons hd tl, st, h => by
    simp only [jsonNormalizedArr, Bool.and_eq_true] at h
    have h1 := normalize_of_normalized hd st h.1
    simp only [normalizeIntelxIdArr, h1]
    have h2 := normalize_of_normalized_arr tl st h.2
    simp only [h2]
theorem normalize_of_normalized_obj : ∀ (fs : JsonObj) (st : Registry),
    jsonNormalizedObj fs = true → normalizeIntelxIdObj st fs = (fs, st)
  | .nil, _, _ => rfl
  | .cons k v tl, st, h => by
    rcases hp : parseTransitionField k with _ | f
    · simp only [jsonNormalizedObj, hp, Bool.and_eq_true] at h
      rw [normObj_cons_other (Or.inr hp)]
      have h1 := normalize_of_normalized v st h.1
      have h2 := normalize_of_normalized_obj tl st h.2
      simp only [h1, h2]
    · cases hv : v.isStr with
      | true =>
        cases v <;> simp [Json.isStr] at hv
        simp [jsonNormalizedObj, hp] at h
      | false =>
        simp only [jsonNormalizedObj, hp, Bool.and_eq_true] at h
        rw [normObj_cons_other (Or.inl hv)]
        have hnv : jsonNormalized v = true := by
          cases v <;> simp_all [Json.isStr]
        have h1 := normalize_of_normalized v st hnv
        have h2 := normalize_of_normalized_obj tl st h.2
        simp only [h1, h2]
end

/-! ## Operation sequences preserve the invariant -/

theorem applyOp_wf {st : Registry} (op : RegOp) (h : RegistryWF st) :
    RegistryWF (applyOp st op) := by
  cases op with
  | assignOp f raw => exact assign_wf f raw h
  | normalizeOp v => exact (normalizeIntelxId_wf_le v st h).1

theorem applyOp_le {st : Registry} (op : RegOp) (h : RegistryWF st) :
    RegistryLE st (applyOp st op) := by
  cases op with
  | assignOp f raw => exact assign_le f raw h
  | normalizeOp v => exact (normalizeIntelxId_wf_le v st h).2

theorem applyOps_wf : ∀ (ops : List RegOp) (st : Registry), RegistryWF st →
    RegistryWF (applyOps st ops)
  | [], _, h => h
  | op :: ops, st, h => applyOps_wf ops (applyOp st op) (applyOp_wf op h)

theorem applyOps_le : ∀ (ops : List RegOp) (st : Registry), RegistryWF st →
    RegistryLE st (applyOps st ops)
  | [], st, _ => RegistryLE.refl st
  | op :: ops, st, h =>
    (applyOp_le op h).trans (applyOps_le ops (applyOp st op) (applyOp_wf op h))

/-! ## Termination-cause characterization of the poll loops -/

/-- In `IntelXClient.search`, a finished run issued terminate exactly
when its final budget is exhausted. -/
theorem intelxSearchLoop_terminate_iff {α : Type} :
    ∀ (script : List (PollResponse α)) (acc : List α) (budget : Int)
      (res : SearchRunResult α), intelxSearchLoop script acc budget = some res →
      (res.terminateCalled = true ↔ res.finalBudget ≤ 0)
  | [], _, _, _, h => by simp [intelxSearchLoop] at h
  | r :: rest, acc, budget, res, h => by
    rw [intelxSearchLoop] at h
    split at h
    · exact intelxSearchLoop_terminate_iff rest _ _ res h
    · split at h
      · cases h
        simp
      · exact intelxSearchLoop_terminate_iff rest _ _ res h

/-- In `IdentityClient.search`, a finished run issued terminate exactly
when its final budget is exhausted or its final poll status is 3. -/
theorem identitySearchLoop_terminate_iff {α : Type} :
    ∀ (script : List (PollResponse α)) (acc : List α) (budget : Int)
      (res : SearchRunResult α), identitySearchLoop script acc budget = some res →
      (res.terminateCalled = true ↔ (res.finalBudget ≤ 0 ∨ res.finalStatus = 3))
  | [], _, _, _, h => by simp [identitySearchLoop] at h
  | ⟨status, records⟩ :: rest, acc, budget, res, h => by
    cases records with
    | none =>
      simp only [identitySearchLoop] at h
      split at h
      · next hcond =>
        cases h
        simp only [decide_eq_true_eq]
        omega
      · split at h
        · next hs =>
          cases h
          simp [hs]
        · exact identitySearchLoop_terminate_iff rest _ _ res h
    | some recs =>
      simp only [identitySearchLoop] at h
      by_cases h0 : status = 0
      · simp only [if_pos h0] at h
        split at h
        · next hcond =>
          cases h
          simp only [decide_eq_true_eq]
          omega
        · split at h
          · next hs =>
            cases h
            simp [hs]
          · exact identitySearchLoop_terminate_iff rest _ _ res h
      · simp only [if_neg h0] at h
        split at h
        · next hcond =>
          cases h
          simp only [decide_eq_true_eq]
          omega
        · split at h
          · next hs =>
            cases h
            simp [hs]
          · exact identitySearchLoop_terminate_iff rest _ _ res h

/-! ## Claim theorems -/

/-- Claim C1, counterexample: with initial budget 5 and poll rounds of
state CONTINUE (status 0) carrying 10 records each, the engine does NOT
stop with exactly 5 accumulated records: the `IdentityClient.search`
loop finishes its first round holding 20 records (the batch is pushed
once in the status-0 step and again in the exit step), refuting the
claimed count of 5 at this concrete input. -/
theorem claim1_counterexample :
    (identitySearchLoop (List.replicate 3 ⟨0, some (List.range 10)⟩)
        ([] : List Nat) 5).map (fun r => r.accumulated.length) = some 20 ∧
    ¬ ((identitySearchLoop (List.replicate 3 ⟨0, some (List.range 10)⟩)
        ([] : List Nat) 5).map (fun r => r.accumulated.length) = some 5) := by
  decide

/-- Claim C1, amended: with initial budget 5 and repeated CONTINUE
rounds of 10 records, both engines stop after the first round and do
issue a terminate call, but neither accumulates exactly 5 records:
`IntelXClient.search` accepts the full 10-record batch, and
`IdentityClient.search` accumulates the batch twice (20 records). -/
theorem claim1_amended :
    intelxSearchLoop (List.replicate 3 ⟨0, some (List.range 10)⟩)
        ([] : List Nat) 5 =
      some { accumulated := List.range 10, finalBudget := -5, finalStatus := 0,
             terminateCalled := true } ∧
    identitySearchLoop (List.replicate 3 ⟨0, some (List.range 10)⟩)
        ([] : List Nat) 5 =
      some { accumulated := List.range 10 ++ List.range 10, finalBudget := -5,
             finalStatus := 0, terminateCalled := true } := by
  decide

/-- Claim C2, counterexample: a run of the `IdentityClient.search` loop
whose terminal cause is the poll state EXPIRED (status 3) with budget 10
still remaining DOES issue a terminate call, refuting the claim that a
terminate call is issued only on budget exhaustion. -/
theorem claim2_counterexample :
    identitySearchLoop ([⟨3, some []⟩] : List (PollResponse Nat)) [] 10 =
      some { accumulated := [], finalBudget := 10, finalStatus := 3,
             terminateCalled := true } := by
  decide

/-- Claim C2, amended: for every finished run, `IntelXClient.search`
issues terminate exactly when the final budget is exhausted (this part
of the claim holds, including the COMPLETE/EXPIRED half whenever budget
remains); `IdentityClient.search` issues terminate exactly when the
final budget is exhausted OR the terminal poll status is 3 (EXPIRED), so
only its COMPLETE (status 2) exits with budget remaining skip the
terminate call. -/
theorem claim2_amended (α : Type) :
    (∀ (script : List (PollResponse α)) (acc : List α) (budget : Int)
      (res : SearchRunResult α), intelxSearchLoop script acc budget = some res →
      (res.terminateCalled = true ↔ res.finalBudget ≤ 0)) ∧
    (∀ (script : List (PollResponse α)) (acc : List α) (budget : Int)
      (res : SearchRunResult α), identitySearchLoop script acc budget = some res →
      (res.terminateCalled = true ↔ (res.finalBudget ≤ 0 ∨ res.finalStatus = 3))) :=
  ⟨fun script acc budget res h => intelxSearchLoop_terminate_iff script acc budget res h,
   fun script acc budget res h => identitySearchLoop_terminate_iff script acc budget res h⟩

/-- Claim C2, witness: the amended theorem applied to two concrete
finished runs, one COMPLETE with budget remaining (no terminate), one
EXPIRED with budget remaining (terminate). -/
theorem claim2_amended_witness :
    (({ accumulated := [7], finalBudget := 9, finalStatus := 2,
        terminateCalled := false } : SearchRunResult Nat).terminateCalled = true ↔
      (9 : Int) ≤ 0) ∧
    (({ accumulated := [], finalBudget := 10, finalStatus := 3,
        terminateCalled := true } : SearchRunResult Nat).terminateCalled = true ↔
      ((10 : Int) ≤ 0 ∨ (3 : Int) = 3)) :=
  ⟨(claim2_amended Nat).1 [⟨2, some [7]⟩] [] 10 _ (by decide),
   (claim2_amended Nat).2 [⟨3, some []⟩] [] 10 _ (by decide)⟩

/-- Claim C3, counterexample: the submit checks are not uniform across
the search families.  The full-text submit accepts a handle of length 2
without raising InvalidHandle, the identity submit accepts a response of
status 1 without raising an invalid-term error, and the phonebook submit
accepts both at once. -/
theorem claim3_counterexample :
    intelligentSearchSubmit { id := "ab", status := 0 } = .ok "ab" ∧
    identitySearchSubmit { id := "abcdefgh", status := 1 } = .ok "abcdefgh" ∧
    phonebookSearchSubmit { id := "ab", status := 1 } = .ok "ab" :=
  ⟨rfl, rfl, rfl⟩

/-- Claim C3, amended: only the full-text submit rejects status 1
(raising the invalid-search-term error) and performs no handle-length
check; only the identity and account-export submits reject a handle of
length at most 3 (raising the invalid-handle error before any poll round
is consumed, as the scripted-run characterization shows) and perform no
status check; the phonebook submit performs neither check. -/
theorem claim3_amended :
    (∀ resp : SearchResponse,
      (intelligentSearchSubmit resp = .error .invalidSearchTerm ↔ resp.status = 1) ∧
      (resp.status ≠ 1 → intelligentSearchSubmit resp = .ok resp.id)) ∧
    (∀ resp : SearchResponse,
      (identitySearchSubmit resp = .error (.invalidHandle resp.id) ↔
        resp.id.length ≤ 3) ∧
      (3 < resp.id.length → identitySearchSubmit resp = .ok resp.id)) ∧
    (∀ resp : SearchResponse,
      (exportAccountsSubmit resp = .error (.invalidHandle resp.id) ↔
        resp.id.length ≤ 3) ∧
      (3 < resp.id.length → exportAccountsSubmit resp = .ok resp.id)) ∧
    (∀ resp : SearchResponse, phonebookSearchSubmit resp = .ok resp.id) ∧
    (∀ (resp : SearchResponse) (script : List (PollResponse Nat)) (budget : Int),
      resp.id.length ≤ 3 →
      identityClientSearch resp script budget = .error (.invalidHandle resp.id)) := by
  refine ⟨fun resp => ⟨?_, ?_⟩, fun resp => ⟨?_, ?_⟩, fun resp => ⟨?_, ?_⟩, fun resp => rfl, ?_⟩
  · constructor
    · intro h
      by_contra hs
      simp [intelligentSearchSubmit, hs] at h
    · intro h
      simp [intelligentSearchSubmit, h]
  · intro h
    simp [intelligentSearchSubmit, h]
  · constructor
    · intro h
      by_contra hs
      simp [identitySearchSubmit, hs] at h
    · intro h
      simp [identitySearchSubmit, h]
  · intro h
    have hne : ¬ resp.id.length ≤ 3 := by omega
    simp [identitySearchSubmit, hne]
  · constructor
    · intro h
      by_contra hs
      simp [exportAccountsSubmit, hs] at h
    · intro h
      simp [exportAccountsSubmit, h]
  · intro h
    have hne : ¬ resp.id.length ≤ 3 := by omega
    simp [exportAccountsSubmit, hne]
  · intro resp script budget h
    simp [identityClientSearch, identitySearchSubmit, h]

/-- Claim C3, witness: the amended theorem applied at concrete submit
responses, discharging each hypothesis. -/
theorem claim3_amended_witness :
    intelligentSearchSubmit { id := "xy", status := 0 } = .ok "xy" ∧
    identitySearchSubmit { id := "abcd", status := 1 } = .ok "abcd" ∧
    exportAccountsSubmit { id := "abcd", status := 1 } = .ok "abcd" ∧
    identityClientSearch { id := "ab", status := 0 }
        ([⟨0, some [5]⟩] : List (PollResponse Nat)) 10 =
      .error (.invalidHandle "ab") :=
  ⟨(claim3_amended.1 { id := "xy", status := 0 }).2 (by decide),
   (claim3_amended.2.1 { id := "abcd", status := 1 }).2 (by decide),
   (claim3_amended.2.2.1 { id := "abcd", status := 1 }).2 (by decide),
   claim3_amended.2.2.2.2 { id := "ab", status := 0 } [⟨0, some [5]⟩] 10 (by decide)⟩

/-- Claim C4: with initial budget 10 and the scripted outcome sequence
[CONTINUE with 0 records, CONTINUE with 3 records, COMPLETE with 2
records], both poll engines finish with exactly the 5 accumulated
records, a positive remaining budget, terminal status COMPLETE, and no
terminate call. -/
theorem claim4_scripted_run :
    intelxSearchLoop [⟨0, some ([] : List Nat)⟩, ⟨0, some [1, 2, 3]⟩, ⟨2, some [4, 5]⟩]
        [] 10 =
      some { accumulated := [1, 2, 3, 4, 5], finalBudget := 5, finalStatus := 2,
             terminateCalled := false } ∧
    identitySearchLoop [⟨0, some ([] : List Nat)⟩, ⟨0, some [1, 2, 3]⟩, ⟨2, some [4, 5]⟩]
        [] 10 =
      some { accumulated := [1, 2, 3, 4, 5], finalBudget := 7, finalStatus := 2,
             terminateCalled := false } := by
  decide

/-- Claim C5: starting from the process-start registry, after any
sequence of registry operations, `denormalize(normalize(tree))` restores
the whole tree — in particular every pseudonymized field recovers its
original raw string — for every tree whose pseudonymizable fields all
hold raw strings (the fields freshly assigned during this run). -/
theorem claim5_denormalize_roundtrip :
    ∀ (ops : List RegOp) (tree : Json), rawTransitionFields tree = true →
    denormalizeIntelxId (normalizeIntelxId (applyOps initialRegistry ops) tree).2
      (normalizeIntelxId (applyOps initialRegistry ops) tree).1 = tree :=
  fun ops tree hraw =>
    denorm_norm_json tree (applyOps initialRegistry ops)
      (applyOps_wf ops initialRegistry initialRegistry_wf) hraw
      (normalizeIntelxId (applyOps initialRegistry ops) tree).2
      (RegistryLE.refl (normalizeIntelxId (applyOps initialRegistry ops) tree).2)

/-- Claim C5, witness: the round trip at a concrete two-field tree in a
fresh process. -/
theorem claim5_denormalize_roundtrip_witness :
    rawTransitionFields
      (Json.obj (.cons "storage_id" (.str "raw-uuid-1")
        (.cons "note" (.str "keep") .nil))) = true ∧
    denormalizeIntelxId
      (normalizeIntelxId (applyOps initialRegistry [])
        (Json.obj (.cons "storage_id" (.str "raw-uuid-1")
          (.cons "note" (.str "keep") .nil)))).2
      (normalizeIntelxId (applyOps initialRegistry [])
        (Json.obj (.cons "storage_id" (.str "raw-uuid-1")
          (.cons "note" (.str "keep") .nil)))).1 =
      Json.obj (.cons "storage_id" (.str "raw-uuid-1")
        (.cons "note" (.str "keep") .nil)) :=
  ⟨rfl, claim5_denormalize_roundtrip []
    (Json.obj (.cons "storage_id" (.str "raw-uuid-1")
      (.cons "note" (.str "keep") .nil))) rfl⟩

/-- Claim C6: in any reachable registry state, assignment is stable and
injective per field namespace: after assigning `a` its integer, the same
query returns the same integer across any further sequence of
normalize/assign operations, and a different raw string `b` never
receives that integer in the same namespace. -/
theorem claim6_registry_stable_injective :
    ∀ (ops more : List RegOp) (f : TransitionField) (a b : String),
      (assign (applyOps (assign (applyOps initialRegistry ops) f a).2 more) f a).1 =
        (assign (applyOps initialRegistry ops) f a).1 ∧
      (a ≠ b →
        (assign (applyOps (assign (applyOps initialRegistry ops) f a).2 more) f b).1 ≠
          (assign (applyOps initialRegistry ops) f a).1) := by
  intro ops more f a b
  have hwf : RegistryWF (applyOps initialRegistry ops) :=
    applyOps_wf ops initialRegistry initialRegistry_wf
  have hwf1 : RegistryWF (assign (applyOps initialRegistry ops) f a).2 :=
    assign_wf f a hwf
  have hwf2 : RegistryWF
      (applyOps (assign (applyOps initialRegistry ops) f a).2 more) :=
    applyOps_wf more _ hwf1
  have hle : RegistryLE (assign (applyOps initialRegistry ops) f a).2
      (applyOps (assign (applyOps initialRegistry ops) f a).2 more) :=
    applyOps_le more _ hwf1
  have hpersist :
      ((applyOps (assign (applyOps initialRegistry ops) f a).2 more).get f).forward.lookup a
        = some (assign (applyOps initialRegistry ops) f a).1 :=
    (hle f).1 a (assign (applyOps initialRegistry ops) f a).1
      (assign_lookup_self (applyOps initialRegistry ops) f a)
  constructor
  · rw [assign_of_lookup_some hpersist]
  · intro hab
    cases hb : ((applyOps (assign (applyOps initialRegistry ops) f a).2 more).get
        f).forward.lookup b with
    | some nb =>
      rw [assign_of_lookup_some hb]
      intro heq
      dsimp only at heq
      have ha2 := (hwf2 f).fw_rev a _ hpersist
      have hb2 := (hwf2 f).fw_rev b nb hb
      rw [heq, ha2] at hb2
      cases hb2
      exact hab rfl
    | none =>
      rw [assign_of_lookup_none hb]
      have hlt := (hwf2 f).fw_lt a _ hpersist
      dsimp only
      omega

/-- Claim C6, witness: the injectivity half applied at a concrete pair
of distinct raw strings in the fresh registry. -/
theorem claim6_registry_stable_injective_witness :
    (assign (applyOps (assign (applyOps initialRegistry []) .owner "alpha").2 [])
        .owner "beta").1 ≠
      (assign (applyOps initialRegistry []) .owner "alpha").1 :=
  (claim6_registry_stable_injective [] [] .owner "alpha" "beta").2 (by decide)

/-- Claim C7: any two raw identity records sharing a storage identifier
merge into exactly one normalized record whose pre-truncation line is
the newline-join of both line texts, the accumulator starting empty so
the first record contributes through the same join ("\nfoo\nbar" for
line texts "foo" and "bar"); the identifier/metadata fields are seeded
from the first record. -/
theorem claim7_identity_merge :
    ∀ (r1 r2 : IdentityRecord), r1.item.storageid = r2.item.storageid →
    mergeByStorageId ([r1, r2].map identityProject) =
      [{ line := ("\n" ++ r1.linea) ++ ("\n" ++ r2.linea),
         system_id := r1.item.systemid, storage_id := r1.item.storageid,
         bucket := r1.item.bucket, filename := r1.item.name,
         date := r1.item.date }] := by
  intro r1 r2 h
  rcases r1 with ⟨⟨n1, d1, b1, s1, y1⟩, l1⟩
  rcases r2 with ⟨⟨n2, d2, b2, s2, y2⟩, l2⟩
  dsimp only at h
  subst h
  simp [mergeByStorageId, mergeStep, identityProject, List.lookup,
    String.empty_append]

/-- Claim C7, witness: the merge of the two concrete records of the
claim, storage identifier "S1" with lines "foo" and "bar". -/
theorem claim7_identity_merge_witness :
    mergeByStorageId
      ([⟨⟨"f", "d", "b", "S1", "X"⟩, "foo"⟩,
        ⟨⟨"f2", "d2", "b2", "S1", "Y"⟩, "bar"⟩].map identityProject) =
      [{ line := "\nfoo\nbar", system_id := "X", storage_id := "S1",
         bucket := "b", filename := "f", date := "d" }] :=
  claim7_identity_merge ⟨⟨"f", "d", "b", "S1", "X"⟩, "foo"⟩
    ⟨⟨"f2", "d2", "b2", "S1", "Y"⟩, "bar"⟩ rfl

set_option maxRecDepth 10000 in
/-- Claim C8: a merged identity line of trimmed length above 128 renders
as its first 128 characters followed by "...(More N characters)" with N
the trimmed length minus 128; shorter lines are rendered as the trimmed
line unchanged; in particular 140 characters render as the first 128
followed by "...(More 12 characters)". -/
theorem claim8_truncation :
    (∀ line : String,
      (128 < (jsTrim line).length →
        truncateIdentityLine line =
          (jsTrim line).take 128 ++
            ("...(More " ++ toString ((jsTrim line).length - 128) ++ " characters)")) ∧
      ((jsTrim line).length ≤ 128 → truncateIdentityLine line = jsTrim line)) ∧
    truncateIdentityLine (String.mk (List.replicate 140 'a')) =
      String.mk (List.replicate 128 'a') ++ "...(More 12 characters)" := by
  constructor
  · intro line
    constructor
    · intro h
      simp only [truncateIdentityLine, if_pos h]
    · intro h
      simp only [truncateIdentityLine, if_neg (not_lt.mpr h)]
  · decide

set_option maxRecDepth 10000 in
/-- Claim C8, witness: the two implications applied at concrete lines, a
130-character line (truncated) and a padded short line (trimmed only). -/
theorem claim8_truncation_witness :
    truncateIdentityLine (String.mk (List.replicate 130 'b')) =
      (jsTrim (String.mk (List.replicate 130 'b'))).take 128 ++
        ("...(More " ++
          toString ((jsTrim (String.mk (List.replicate 130 'b'))).length - 128) ++
          " characters)") ∧
    truncateIdentityLine "  hi  " = jsTrim "  hi  " :=
  ⟨(claim8_truncation.1 (String.mk (List.replicate 130 'b'))).1 (by decide),
   (claim8_truncation.1 "  hi  ").2 (by decide)⟩

/-- Claim C9: the single-shot handlers resolve their integer through the
field-name strings "storageid" / "systemid", which are not registry
namespaces (the registry uses "storage_id" / "system_id"), so resolution
fails for EVERY state and integer — including an integer just assigned
by the registry, for which the claimed behavior is successful resolution
to the raw identifier; the unknown-identifier error is raised before the
upstream call even for valid identifiers. -/
theorem claim9_handler_resolution :
    (∀ (st : Registry) (n : Int),
      resolveHandlerStorageId st n = .error (.invalidStorageId n) ∧
      resolveHandlerSystemId st n = .error (.invalidSystemId n)) ∧
    resolveHandlerStorageId (assign initialRegistry .storage_id "RAW-STORAGE-UUID").2 1 =
      .error (.invalidStorageId 1) ∧
    getOriginalUuid (assign initialRegistry .storage_id "RAW-STORAGE-UUID").2
      "storage_id" 1 = some "RAW-STORAGE-UUID" := by
  have hs1 : parseTransitionField "storageid" = none := by decide
  have hs2 : parseTransitionField "systemid" = none := by decide
  refine ⟨fun st n => ⟨?_, ?_⟩, ?_, ?_⟩
  · simp [resolveHandlerStorageId, getOriginalUuid, hs1]
  · simp [resolveHandlerSystemId, getOriginalUuid, hs2]
  · simp [resolveHandlerStorageId, getOriginalUuid, hs1]
  · rfl

/-- Claim C10: the pseudonymizing walk is idempotent — rerunning
`normalizeIntelxId` on its own output changes neither the tree nor the
registry (so the double normalization in the server pipeline is a
no-op); moreover a plain string at top level is returned unchanged and a
pseudonymizable field already holding an integer is left untouched. -/
theorem claim10_normalize_idempotent :
    (∀ (st : Registry) (v : Json),
      normalizeIntelxId (normalizeIntelxId st v).2 (normalizeIntelxId st v).1 =
        normalizeIntelxId st v) ∧
    (∀ (st : Registry) (s : String), normalizeIntelxId st (.str s) = (.str s, st)) ∧
    (∀ (st : Registry) (k : String) (n : Int) (fs : JsonObj),
      normalizeIntelxIdObj st (.cons k (.num n) fs) =
        (.cons k (.num n) (normalizeIntelxIdObj st fs).1,
         (normalizeIntelxIdObj st fs).2)) := by
  refine ⟨fun st v => ?_, fun st s => rfl, fun st k n fs => ?_⟩
  · have h := normalize_normalized v st
    have h2 := normalize_of_normalized (normalizeIntelxId st v).1
      (normalizeIntelxId st v).2 h
    rw [h2]
  · exact normObj_cons_other (Or.inl rfl)

end IntelxMcp
